import Mathlib

/-!
Shallow embedding of the `agent-chat-server` repository pieces that the
claims mention: the SQL cache manager (`workflow_sql/cache_manager.py`),
the `should_continue` routing predicate (`workflow_sql/nodes.py`), the
dialect detector (`workflow_sql/database.py`), the chart-URL validator
(`workflow_sql/async_chart_generator.py`) and the supervisor-agent
factory (`src/agent/supervisor.py`).

Python dictionaries are modelled as insertion-ordered association lists
(`List (String × β)`); `time.time()` becomes an explicit `now : Int`
argument; Python exceptions become `Except`.
-/

/-- Lookup in an insertion-ordered association list; models `dict.get` /
`dict[k]` together with the `k in d` membership test. -/
def dictGet {β : Type} (k : String) : List (String × β) → Option β
  | [] => none
  | (k', v) :: rest => if k' = k then some v else dictGet k rest

/-- Models Python dict assignment `d[k] = v`: replaces in place when the key
is present (keeping its position in iteration order), appends otherwise. -/
def insertKey {β : Type} (k : String) (v : β) : List (String × β) → List (String × β)
  | [] => [(k, v)]
  | (k', v') :: rest =>
    if k' = k then (k', v) :: rest else (k', v') :: insertKey k v rest

/-- Models Python `del d[k]`: removes the first pair stored under `k` (the
only one, given the no-duplicate-keys invariant). -/
def eraseKey {β : Type} (k : String) : List (String × β) → List (String × β)
  | [] => []
  | (k', v') :: rest =>
    if k' = k then rest else (k', v') :: eraseKey k rest

/-- Models an in-place mutation of the entry stored under `k`. -/
def updateKey {β : Type} (k : String) (f : β → β) : List (String × β) → List (String × β)
  | [] => []
  | (k', v') :: rest =>
    if k' = k then (k', f v') :: rest else (k', v') :: updateKey k f rest

/-- A Python dict never holds two pairs with the same key; every association
list that models one satisfies this invariant. -/
def keysNodup {β : Type} (l : List (String × β)) : Prop :=
  (l.map Prod.fst).Nodup

/-- CacheEntry dataclass of `cache_manager.py`: payload, creation timestamp
and access counter (`access_count` starts at 0). -/
structure CacheEntry (α : Type) where
  data : α
  timestamp : Int
  access_count : Nat
deriving DecidableEq, Repr

/-- CacheEntry.is_expired: `time.time() - self.timestamp > ttl_seconds`. -/
def CacheEntry.is_expired {α : Type} (e : CacheEntry α) (ttl_seconds : Int) (now : Int) : Bool :=
  decide (now - e.timestamp > ttl_seconds)

/-- CacheEntry.access: increments the access counter and yields the payload. -/
def CacheEntry.access {α : Type} (e : CacheEntry α) : α × CacheEntry α :=
  (e.data, { e with access_count := e.access_count + 1 })

/-- SQLCacheManager state: default TTL, capacity and the backing dict. -/
structure SQLCacheManager (α : Type) where
  default_ttl : Int
  max_entries : Nat
  cache : List (String × CacheEntry α)
deriving DecidableEq, Repr

/-- Models the Python expression `ttl or self.default_ttl` in
`SQLCacheManager.get`: both `None` and the falsy value `0` fall back to
the default TTL. -/
def ttlOrDefault (ttl : Option Int) (default_ttl : Int) : Int :=
  match ttl with
  | none => default_ttl
  | some t => if t = 0 then default_ttl else t

/-- SQLCacheManager.get: miss returns `none`; an expired entry is deleted
and `none` returned; a hit returns the payload via `entry.access()`,
storing the entry with its counter incremented. -/
def SQLCacheManager.get {α : Type} (m : SQLCacheManager α) (key : String)
    (ttl : Option Int) (now : Int) : Option α × SQLCacheManager α :=
  match dictGet key m.cache with
  | none => (none, m)
  | some entry =>
    let t := ttlOrDefault ttl m.default_ttl
    if entry.is_expired t now then
      (none, { m with cache := eraseKey key m.cache })
    else
      let av := entry.access
      (some av.1, { m with cache := updateKey key (fun _ => av.2) m.cache })

/-- Result of Python `min(keys, key=lambda k: cache[k].access_count)` on a
non-empty dict, folded left with first-wins tie-breaking (Python `min`
keeps the earliest minimal element). -/
def minAccAux {α : Type} (best : String × CacheEntry α) :
    List (String × CacheEntry α) → String × CacheEntry α
  | [] => best
  | p :: rest =>
    minAccAux (if p.2.access_count < best.2.access_count then p else best) rest

/-- Key selected by `_evict_lru`, `none` when the dict is empty. -/
def lruKey {α : Type} : List (String × CacheEntry α) → Option String
  | [] => none
  | p :: rest => some (minAccAux p rest).1

/-- SQLCacheManager._evict_lru: deletes the entry with the fewest accesses;
a no-op on an empty cache. -/
def SQLCacheManager.evict_lru {α : Type} (m : SQLCacheManager α) : SQLCacheManager α :=
  match lruKey m.cache with
  | none => m
  | some k => { m with cache := eraseKey k m.cache }

/-- SQLCacheManager.set: when `len(cache) >= max_entries` first runs
`_evict_lru`, then stores a fresh entry (access counter 0) under `key`. -/
def SQLCacheManager.set {α : Type} (m : SQLCacheManager α) (key : String)
    (data : α) (now : Int) : SQLCacheManager α :=
  let m1 := if m.cache.length ≥ m.max_entries then m.evict_lru else m
  { m1 with cache := insertKey key ⟨data, now, 0⟩ m1.cache }

/-- SQLCacheManager.delete: removes the key when present and reports
whether anything was removed. -/
def SQLCacheManager.delete {α : Type} (m : SQLCacheManager α) (key : String) :
    Bool × SQLCacheManager α :=
  match dictGet key m.cache with
  | some _ => (true, { m with cache := eraseKey key m.cache })
  | none => (false, m)

/-- SQLCacheManager.cleanup_expired: collects every key whose entry is
expired against the default TTL, deletes them one by one, and returns how
many were deleted. -/
def SQLCacheManager.cleanup_expired {α : Type} (m : SQLCacheManager α) (now : Int) :
    Nat × SQLCacheManager α :=
  let expired_keys :=
    (m.cache.filter (fun p => p.2.is_expired m.default_ttl now)).map Prod.fst
  let cache' := expired_keys.foldl (fun c k => eraseKey k c) m.cache
  (expired_keys.length, { m with cache := cache' })


/-- One entry of a message's `tool_calls` list; `name` models the dict
access `tool_call.get("name")`, which may be absent. -/
structure ToolCall where
  name : Option String
deriving DecidableEq, Repr

/-- A produced message; `tool_calls = none` models a message object without
a `tool_calls` attribute (the `hasattr` test fails on it). -/
structure AIMessage where
  tool_calls : Option (List ToolCall)
deriving DecidableEq, Repr

/-- MessagesState of the workflow graph: the conversation message list. -/
structure MessagesState where
  messages : List AIMessage
deriving DecidableEq, Repr

/-- The langgraph END sentinel. -/
def END : String := "__end__"

/-- should_continue of `workflow_sql/nodes.py`: looks at `messages[-1]`;
when `hasattr(last, "tool_calls")` holds and the list is non-empty it
inspects `tool_calls[0]` and routes to `"check_query"` exactly when its
name is `"sql_db_query"`, otherwise to END; any exception (such as the
IndexError on an empty message list) is caught and routed to END. -/
def should_continue (state : MessagesState) : String :=
  match state.messages.getLast? with
  | none => END
  | some last =>
    match last.tool_calls with
    | some (tc :: _) =>
      if tc.name = some "sql_db_query" then "check_query" else END
    | _ => END

/-- Does the character list `sub` begin the character list `l`? -/
def charsLeading : List Char → List Char → Bool
  | [], _ => true
  | _ :: _, [] => false
  | a :: as, b :: bs => a == b && charsLeading as bs

/-- Contiguous-substring test on character lists; models Python
`sub in s`. -/
def charsContain (sub : List Char) : List Char → Bool
  | [] => charsLeading sub []
  | c :: rest => charsLeading sub (c :: rest) || charsContain sub rest

/-- Python `sub in hay` on strings. -/
def strContains (hay sub : String) : Bool :=
  charsContain sub.data hay.data

/-- Python `s.startswith(p)`. -/
def strStartsWith (s p : String) : Bool :=
  charsLeading p.data s.data

/-- Python `s.lower()` (character-wise, which covers the ASCII dialect
strings involved here). -/
def strToLower (s : String) : String :=
  ⟨s.data.map Char.toLower⟩

/-- DatabaseDialect enumeration of `workflow_sql/database.py`. -/
inductive DatabaseDialect where
  | sqlite
  | postgresql
  | mysql
  | mssql
  | oracle
deriving DecidableEq, Repr

/-- SQLDatabaseManager._detect_dialect: lowercases the dialect string and
tests the recognizers in source order — sqlite first, then
postgresql/postgres, mysql, mssql/sqlserver, oracle — defaulting to
sqlite when none matches. -/
def detect_dialect (dialect_str : String) : DatabaseDialect :=
  let s := strToLower dialect_str
  if strContains s "sqlite" then DatabaseDialect.sqlite
  else if strContains s "postgresql" || strContains s "postgres" then DatabaseDialect.postgresql
  else if strContains s "mysql" then DatabaseDialect.mysql
  else if strContains s "mssql" || strContains s "sqlserver" then DatabaseDialect.mssql
  else if strContains s "oracle" then DatabaseDialect.oracle
  else DatabaseDialect.sqlite

/-- AsyncChartGenerator._validate_chart_url: requires an http/https scheme
and length at least 20; for a quickchart.io URL additionally requires the
substring `chart?c=`. The source's subsequent check for `%22type%22` and
`%22data%22` is mis-indented into the block that has already executed
`return False`, so it is unreachable and the function accepts any
quickchart.io URL containing `chart?c=`; the non-quickchart branch only
logs and always accepts. -/
def validate_chart_url (url : String) : Bool :=
  if ¬ (strStartsWith url "http://" || strStartsWith url "https://") then false
  else if url.data.length < 20 then false
  else if strContains url "quickchart.io" then
    if ¬ strContains url "chart?c=" then false
    else true
  else true

/-- ModelConfig fields consumed by the supervisor factory. -/
structure ModelConfig where
  name : String
  api_key : String
  base_url : String
deriving DecidableEq, Repr

/-- PromptConfig fields consumed by the supervisor factory. -/
structure PromptConfig where
  id : String
  content : String
deriving DecidableEq, Repr

/-- AgentSystemConfig fields consumed by the supervisor factory: the
designated supervisor model name and the `models` / `prompts` dicts. -/
structure AgentSystemConfig where
  supervisor_model : String
  models : List (String × ModelConfig)
  prompts : List (String × PromptConfig)
deriving DecidableEq, Repr

/-- Opaque stand-in for a constructed ChatOpenAI client. -/
structure ChatOpenAI where
  model : String
deriving DecidableEq, Repr

/-- Opaque stand-in for the agent built by the framework's
`create_react_agent`. -/
structure ReactAgent where
  model : ChatOpenAI
  tools_count : Nat
  prompt : String
  agent_name : String
deriving DecidableEq, Repr

/-- create_supervisor_agent of `src/agent/supervisor.py`. The framework
constructors `ChatOpenAI(...)` and `create_react_agent(...)` may raise, so
they are passed in as `Except`-valued parameters. The Python body returns
`None` when the model config or the supervisor prompt is missing, and its
`try/except` catches every exception and also returns `None`; `Except.ok`
models a normal return, `Except.error` a raised exception escaping the
function. -/
def create_supervisor_agent
    (mkChatOpenAI : ModelConfig → Except String ChatOpenAI)
    (create_react_agent : ChatOpenAI → Nat → String → Except String ReactAgent)
    (config : AgentSystemConfig) (handoff_tools_count : Nat) :
    Except String (Option ReactAgent) :=
  let body : Except String (Option ReactAgent) :=
    match dictGet config.supervisor_model config.models with
    | none => Except.ok none
    | some model_config =>
      match mkChatOpenAI model_config with
      | Except.error e => Except.error e
      | Except.ok llm =>
        match dictGet "supervisor" config.prompts with
        | none => Except.ok none
        | some prompt_config =>
          match create_react_agent llm handoff_tools_count prompt_config.content with
          | Except.error e => Except.error e
          | Except.ok supervisor => Except.ok (some supervisor)
  match body with
  | Except.error _ => Except.ok none
  | Except.ok r => Except.ok r


theorem dictGet_insertKey_self {β : Type} (k : String) (v : β) (l : List (String × β)) :
    dictGet k (insertKey k v l) = some v := by
  induction l with
  | nil => simp [insertKey, dictGet]
  | cons p rest ih =>
    obtain ⟨k', v'⟩ := p
    by_cases h : k' = k
    · simp [insertKey, dictGet, h]
    · simp [insertKey, dictGet, h, ih]

theorem dictGet_insertKey_ne {β : Type} (k k' : String) (v : β) (l : List (String × β))
    (h : k' ≠ k) : dictGet k' (insertKey k v l) = dictGet k' l := by
  have hk : ¬ k = k' := fun hh => h hh.symm
  induction l with
  | nil => simp [insertKey, dictGet, hk]
  | cons p rest ih =>
    obtain ⟨k0, v0⟩ := p
    by_cases h0 : k0 = k
    · subst h0
      simp [insertKey, dictGet, hk]
    · simp [insertKey, dictGet, h0, ih]

theorem mem_of_dictGet {β : Type} {k : String} {v : β} {l : List (String × β)}
    (h : dictGet k l = some v) : (k, v) ∈ l := by
  induction l with
  | nil => simp [dictGet] at h
  | cons p rest ih =>
    obtain ⟨k0, v0⟩ := p
    by_cases h0 : k0 = k
    · subst h0
      simp [dictGet] at h
      simp [h]
    · simp [dictGet, h0] at h
      exact List.mem_cons_of_mem _ (ih h)

theorem dictGet_of_mem {β : Type} {k : String} {v : β} {l : List (String × β)}
    (hnd : keysNodup l) (h : (k, v) ∈ l) : dictGet k l = some v := by
  induction l with
  | nil => simp at h
  | cons p rest ih =>
    obtain ⟨k0, v0⟩ := p
    unfold keysNodup at hnd
    simp only [List.map_cons, List.nodup_cons] at hnd
    rcases List.mem_cons.mp h with heq | hmem
    · cases heq
      simp [dictGet]
    · have hk : k0 ≠ k := by
        intro hk0
        exact hnd.1 (hk0 ▸ (List.mem_map_of_mem Prod.fst hmem))
      simp [dictGet, hk]
      exact ih hnd.2 hmem

theorem notMem_keys_dictGet {β : Type} {k : String} {l : List (String × β)}
    (h : k ∉ l.map Prod.fst) : dictGet k l = none := by
  induction l with
  | nil => rfl
  | cons p rest ih =>
    simp only [List.map_cons, List.mem_cons] at h
    push_neg at h
    obtain ⟨k0, v0⟩ := p
    have : k0 ≠ k := fun hh => h.1 hh.symm
    simp [dictGet, this, ih h.2]

theorem eraseKey_eq_filter {β : Type} {k : String} {l : List (String × β)}
    (hnd : keysNodup l) : eraseKey k l = l.filter (fun p => p.1 != k) := by
  induction l with
  | nil => rfl
  | cons p rest ih =>
    obtain ⟨k0, v0⟩ := p
    unfold keysNodup at hnd
    simp only [List.map_cons, List.nodup_cons] at hnd
    by_cases h0 : k0 = k
    · subst h0
      have : rest.filter (fun p => p.1 != k0) = rest := by
        apply List.filter_eq_self.mpr
        intro p hp
        simp only [bne_iff_ne, ne_eq, decide_eq_true_eq]
        intro hh
        exact hnd.1 (hh ▸ List.mem_map_of_mem Prod.fst hp)
      simp [eraseKey, List.filter, this]
    · simp only [eraseKey, if_neg h0, ih hnd.2]
      have : ((k0, v0).1 != k) = true := by simp [h0]
      simp [List.filter, this]

theorem keysNodup_filter {β : Type} (q : String × β → Bool) {l : List (String × β)}
    (hnd : keysNodup l) : keysNodup (l.filter q) := by
  unfold keysNodup at hnd ⊢
  exact ((List.filter_sublist l).map Prod.fst).nodup hnd

theorem foldl_eraseKey_eq_filter {β : Type} (ks : List String) (l : List (String × β))
    (hnd : keysNodup l) :
    ks.foldl (fun c k => eraseKey k c) l = l.filter (fun p => decide (p.1 ∉ ks)) := by
  induction ks generalizing l with
  | nil => simp
  | cons k ks ih =>
    have h1 : eraseKey k l = l.filter (fun p => p.1 != k) := eraseKey_eq_filter hnd
    have h2 : keysNodup (l.filter (fun p => p.1 != k)) := keysNodup_filter _ hnd
    calc (k :: ks).foldl (fun c k => eraseKey k c) l
        = ks.foldl (fun c k => eraseKey k c) (eraseKey k l) := rfl
      _ = (l.filter (fun p => p.1 != k)).filter (fun p => decide (p.1 ∉ ks)) := by
          rw [h1]; exact ih _ h2
      _ = l.filter (fun p => decide (p.1 ∉ k :: ks)) := by
          rw [List.filter_filter]
          apply List.filter_congr
          intro p _
          by_cases hk : p.1 = k <;> by_cases hks : p.1 ∈ ks <;>
            simp [hk, hks]

theorem dictGet_eraseKey_self {β : Type} {k : String} {l : List (String × β)}
    (hnd : keysNodup l) : dictGet k (eraseKey k l) = none := by
  rw [eraseKey_eq_filter hnd]
  apply notMem_keys_dictGet
  intro hmem
  obtain ⟨p, hp, hpk⟩ := List.mem_map.mp hmem
  have := List.of_mem_filter hp
  simp [hpk] at this

theorem dictGet_updateKey_self {β : Type} {k : String} {v : β} (f : β → β)
    {l : List (String × β)} (h : dictGet k l = some v) :
    dictGet k (updateKey k f l) = some (f v) := by
  induction l with
  | nil => simp [dictGet] at h
  | cons p rest ih =>
    obtain ⟨k0, v0⟩ := p
    by_cases h0 : k0 = k
    · subst h0
      simp [dictGet] at h
      simp [updateKey, dictGet, h]
    · simp [dictGet, h0] at h
      simp [updateKey, dictGet, h0, ih h]

theorem evict_lru_default_ttl {α : Type} (m : SQLCacheManager α) :
    m.evict_lru.default_ttl = m.default_ttl := by
  unfold SQLCacheManager.evict_lru
  cases lruKey m.cache <;> rfl

theorem set_default_ttl {α : Type} (m : SQLCacheManager α) (k : String) (v : α) (now : Int) :
    (m.set k v now).default_ttl = m.default_ttl := by
  unfold SQLCacheManager.set
  by_cases h : m.cache.length ≥ m.max_entries <;>
    simp [h, evict_lru_default_ttl]

theorem minAccAux_memOrEq {α : Type} (best : String × CacheEntry α)
    (l : List (String × CacheEntry α)) :
    minAccAux best l = best ∨ minAccAux best l ∈ l := by
  induction l generalizing best with
  | nil => left; rfl
  | cons p rest ih =>
    rcases ih (if p.2.access_count < best.2.access_count then p else best) with h | h
    · rw [minAccAux, h]
      by_cases hc : p.2.access_count < best.2.access_count
      · right; simp [hc]
      · left; simp [hc]
    · right
      rw [minAccAux]
      exact List.mem_cons_of_mem _ h

theorem minAccAux_le {α : Type} (best : String × CacheEntry α)
    (l : List (String × CacheEntry α)) :
    ∀ q ∈ best :: l, (minAccAux best l).2.access_count ≤ q.2.access_count := by
  induction l generalizing best with
  | nil =>
    intro q hq
    rcases List.mem_cons.mp hq with h | h
    · rw [h]; exact Nat.le_refl _
    · simp at h
  | cons p rest ih =>
    intro q hq
    by_cases hc : p.2.access_count < best.2.access_count
    · rw [minAccAux, if_pos hc]
      rcases List.mem_cons.mp hq with h | h
      · rw [h]
        exact le_trans (ih p p (List.mem_cons_self _ _)) (le_of_lt hc)
      · exact ih p q h
    · rw [minAccAux, if_neg hc]
      rcases List.mem_cons.mp hq with h | h
      · rw [h]; exact ih best best (List.mem_cons_self _ _)
      · rcases List.mem_cons.mp h with h2 | h2
        · rw [h2]
          exact le_trans (ih best best (List.mem_cons_self _ _)) (Nat.le_of_not_lt hc)
        · exact ih best q (List.mem_cons_of_mem _ h2)

/-- Concrete one-entry cache (default TTL 3600, capacity 100) used to
instantiate the cache claims. -/
def cexCache : SQLCacheManager Nat := ⟨3600, 100, [("k", ⟨7, 0, 0⟩)]⟩

/-- C3: for all keys k and values v, `set(k, v)` immediately followed by
`get(k)` (same instant, no intervening operations, nonnegative default
TTL so that zero elapsed time is within the TTL) returns v. -/
theorem set_then_get_returns_value {α : Type} (m : SQLCacheManager α)
    (k : String) (v : α) (now : Int) (httl : 0 ≤ m.default_ttl) :
    ((m.set k v now).get k none now).1 = some v := by
  have hget : dictGet k (m.set k v now).cache = some ⟨v, now, 0⟩ := by
    have hc : (m.set k v now).cache =
        insertKey k ⟨v, now, 0⟩
          (if m.cache.length ≥ m.max_entries then m.evict_lru else m).cache := rfl
    rw [hc, dictGet_insertKey_self]
  have hd : (m.set k v now).default_ttl = m.default_ttl := set_default_ttl m k v now
  have hexp : (⟨v, now, 0⟩ : CacheEntry α).is_expired
      (ttlOrDefault none (m.set k v now).default_ttl) now = false := by
    simp [CacheEntry.is_expired, ttlOrDefault, hd]
    omega
  simp [SQLCacheManager.get, hget, hexp, CacheEntry.access]

/-- Witness for C3 at a concrete input. -/
theorem set_then_get_returns_value_witness :
    ((cexCache.set "fresh" 42 5).get "fresh" none 5).1 = some 42 :=
  set_then_get_returns_value cexCache "fresh" 42 5 (by decide)

/-- C2 counterexample: the claim says a supplied ttl is honoured, the
default applying only when ttl is not supplied. With the stored entry
10 seconds old and an explicit `ttl = 0`, the claim demands an expired
miss (10 > 0); the code's `ttl = ttl or self.default_ttl` treats 0 as
falsy, falls back to the 3600-second default, and returns a hit, keeping
the entry with its access counter incremented. -/
theorem get_zero_ttl_counterexample :
    (10 : Int) - 0 > 0 ∧
    (cexCache.get "k" (some 0) 10).1 = some 7 ∧
    dictGet "k" (cexCache.get "k" (some 0) 10).2.cache = some ⟨7, 0, 1⟩ := by decide

/-- C2 (amended): for every supplied ttl — where the effective TTL is the
supplied value, falling back to the configured default both when ttl is
not supplied and when it is supplied as the falsy value 0, exactly as
`ttl = ttl or self.default_ttl` computes — `get` returns the stored
value exactly when `now - timestamp <=` the effective TTL, and otherwise
removes the expired entry and returns the absent sentinel. -/
theorem get_ttl_expiry_semantics {α : Type} (m : SQLCacheManager α) (key : String)
    (ttl : Option Int) (now : Int) (e : CacheEntry α)
    (hnd : keysNodup m.cache) (hmem : dictGet key m.cache = some e) :
    (now - e.timestamp ≤ ttlOrDefault ttl m.default_ttl →
        (m.get key ttl now).1 = some e.data)
    ∧ (now - e.timestamp > ttlOrDefault ttl m.default_ttl →
        (m.get key ttl now).1 = none ∧
        dictGet key (m.get key ttl now).2.cache = none) := by
  constructor
  · intro hle
    have hexp : e.is_expired (ttlOrDefault ttl m.default_ttl) now = false := by
      simp [CacheEntry.is_expired]
      omega
    simp [SQLCacheManager.get, hmem, hexp, CacheEntry.access]
  · intro hgt
    have hexp : e.is_expired (ttlOrDefault ttl m.default_ttl) now = true := by
      simp [CacheEntry.is_expired]
      omega
    refine ⟨?_, ?_⟩
    · simp [SQLCacheManager.get, hmem, hexp]
    · simp only [SQLCacheManager.get, hmem, hexp]
      simpa using dictGet_eraseKey_self hnd

/-- Witness for the amended C2 at concrete inputs, exercising the
supplied-as-0 fallback: with the entry 10 seconds old and ttl supplied
as 0, the effective TTL is the 3600-second default and the hit returns
the stored value. -/
theorem get_ttl_expiry_semantics_witness :
    (cexCache.get "k" (some 0) 10).1 = some 7 :=
  (get_ttl_expiry_semantics cexCache "k" (some 0) 10 ⟨7, 0, 0⟩
    (by unfold keysNodup; decide) (by decide)).1 (by decide)

/-- C8: cache operations never raise for a missing key — `get` returns the
`none` sentinel and leaves the cache untouched, `delete` returns
`false` and leaves the cache untouched. -/
theorem missing_key_sentinel {α : Type} (m : SQLCacheManager α) (key : String)
    (ttl : Option Int) (now : Int) (habs : dictGet key m.cache = none) :
    m.get key ttl now = (none, m) ∧ m.delete key = (false, m) := by
  constructor
  · simp [SQLCacheManager.get, habs]
  · simp [SQLCacheManager.delete, habs]

/-- Witness for C8 at a concrete input. -/
theorem missing_key_sentinel_witness :
    cexCache.get "absent" none 0 = (none, cexCache) ∧
    cexCache.delete "absent" = (false, cexCache) :=
  missing_key_sentinel cexCache "absent" none 0 (by decide)

/-- C4: routing of should_continue — when the last message's sole tool call
is named "sql_db_query" the route is "check_query"; when its sole tool
call has any other name (or no name), or it has no tool call at all
(missing attribute or empty list), the route is END. -/
theorem should_continue_routing (state : MessagesState) (last : AIMessage)
    (hlast : state.messages.getLast? = some last) :
    (∀ tc, last.tool_calls = some [tc] → tc.name = some "sql_db_query" →
        should_continue state = "check_query")
    ∧ (∀ tc, last.tool_calls = some [tc] → tc.name ≠ some "sql_db_query" →
        should_continue state = END)
    ∧ ((last.tool_calls = none ∨ last.tool_calls = some []) →
        should_continue state = END) := by
  refine ⟨?_, ?_, ?_⟩
  · intro tc h1 h2
    simp [should_continue, hlast, h1, h2]
  · intro tc h1 h2
    simp [should_continue, hlast, h1, h2]
  · intro h
    rcases h with h | h <;> simp [should_continue, hlast, h]

/-- Witness for C4 at a concrete state. -/
theorem should_continue_routing_witness :
    should_continue ⟨[⟨some [⟨some "sql_db_query"⟩]⟩]⟩ = "check_query" :=
  (should_continue_routing ⟨[⟨some [⟨some "sql_db_query"⟩]⟩]⟩
      ⟨some [⟨some "sql_db_query"⟩]⟩ (by decide)).1
    ⟨some "sql_db_query"⟩ rfl rfl

/-- C5 counterexample: the dialect string "postgres-sqlite" contains
"postgres", yet detection returns SQLite, because the source tests the
"sqlite" recognizer first. -/
theorem detect_dialect_postgres_counterexample :
    strContains (strToLower "postgres-sqlite") "postgres" = true ∧
    detect_dialect "postgres-sqlite" = DatabaseDialect.sqlite := by decide

/-- C5 (amended): a dialect string containing "postgres" or "postgresql"
(after lowercasing) and not containing "sqlite" is detected as
PostgreSQL; a string matching none of the recognizers sqlite /
postgresql / postgres / mysql / mssql / sqlserver / oracle defaults to
SQLite. -/
theorem detect_dialect_postgres_default (s : String) :
    ((strContains (strToLower s) "postgres" = true ∧
      strContains (strToLower s) "sqlite" = false) →
        detect_dialect s = DatabaseDialect.postgresql)
    ∧ ((strContains (strToLower s) "sqlite" = false ∧
        strContains (strToLower s) "postgresql" = false ∧
        strContains (strToLower s) "postgres" = false ∧
        strContains (strToLower s) "mysql" = false ∧
        strContains (strToLower s) "mssql" = false ∧
        strContains (strToLower s) "sqlserver" = false ∧
        strContains (strToLower s) "oracle" = false) →
        detect_dialect s = DatabaseDialect.sqlite) := by
  constructor
  · rintro ⟨h1, h2⟩
    simp [detect_dialect, h1, h2]
  · rintro ⟨h1, h2, h3, h4, h5, h6, h7⟩
    simp [detect_dialect, h1, h2, h3, h4, h5, h6, h7]

/-- Witness for the amended C5 at a concrete dialect string. -/
theorem detect_dialect_postgres_default_witness :
    detect_dialect "postgresql" = DatabaseDialect.postgresql :=
  (detect_dialect_postgres_default "postgresql").1 ⟨by decide, by decide⟩

/-- C6 counterexample: with the supervisor model name absent from the
models dict, create_supervisor_agent returns normally with None
(`Except.ok none`) — the failure is converted into a non-fatal result,
not raised as an exception halting graph assembly. -/
theorem create_supervisor_missing_model_counterexample :
    create_supervisor_agent (fun mc => Except.ok ⟨mc.name⟩)
      (fun llm n p => Except.ok ⟨llm, n, p, "supervisor"⟩)
      ⟨"missing", [], []⟩ 0 = Except.ok none := rfl

/-- C6 (amended): create_supervisor_agent never raises — a missing model
config or missing supervisor prompt is returned as None, and its
try/except converts every exception from the LLM or agent constructors
into the same non-fatal None; no construction failure escapes as an
exception. -/
theorem create_supervisor_agent_never_raises
    (mkChatOpenAI : ModelConfig → Except String ChatOpenAI)
    (create_react_agent : ChatOpenAI → Nat → String → Except String ReactAgent)
    (config : AgentSystemConfig) (n : Nat) :
    ∃ r, create_supervisor_agent mkChatOpenAI create_react_agent config n =
      Except.ok r := by
  rcases hm : dictGet config.supervisor_model config.models with _ | mc
  · exact ⟨none, by simp [create_supervisor_agent, hm]⟩
  · rcases hl : mkChatOpenAI mc with e | llm
    · exact ⟨none, by simp [create_supervisor_agent, hm, hl]⟩
    · rcases hp : dictGet "supervisor" config.prompts with _ | pc
      · exact ⟨none, by simp [create_supervisor_agent, hm, hl, hp]⟩
      · rcases ha : create_react_agent llm n pc.content with e | ag
        · exact ⟨none, by simp [create_supervisor_agent, hm, hl, hp, ha]⟩
        · exact ⟨some ag, by simp [create_supervisor_agent, hm, hl, hp, ha]⟩

/-- C7 (code bug witness): the quickchart.io URL
"https://quickchart.io/chart?c=abc" carries neither the encoded
"%22type%22" nor the "%22data%22" parameter, yet validation accepts it:
the parameter check in the source sits mis-indented after
`return False` and can never execute, contradicting the source comment
announcing the check. -/
theorem validate_chart_url_dead_check :
    strContains "https://quickchart.io/chart?c=abc" "%22type%22" = false ∧
    strContains "https://quickchart.io/chart?c=abc" "%22data%22" = false ∧
    validate_chart_url "https://quickchart.io/chart?c=abc" = true := by decide

/-- C1: when the entry count has reached capacity, `set` first evicts
exactly one stored entry whose access counter is minimal among all
stored entries — never one with a strictly higher counter — and then
inserts the new entry with a fresh counter of 0. -/
theorem set_at_capacity_evicts_min_access {α : Type} (m : SQLCacheManager α)
    (key : String) (v : α) (now : Int)
    (hfull : m.max_entries ≤ m.cache.length) (hpos : 0 < m.cache.length)
    (hnd : keysNodup m.cache) :
    ∃ ek e, dictGet ek m.cache = some e ∧
      (∀ k' e', dictGet k' m.cache = some e' → e.access_count ≤ e'.access_count) ∧
      (m.set key v now).cache = insertKey key ⟨v, now, 0⟩ (eraseKey ek m.cache) := by
  obtain ⟨p, rest, hc⟩ : ∃ p rest, m.cache = p :: rest := by
    cases hcc : m.cache with
    | nil => rw [hcc] at hpos; simp at hpos
    | cons a b => exact ⟨a, b, rfl⟩
  refine ⟨(minAccAux p rest).1, (minAccAux p rest).2, ?_, ?_, ?_⟩
  · have hmem : minAccAux p rest ∈ m.cache := by
      rw [hc]
      rcases minAccAux_memOrEq p rest with h | h
      · rw [h]; exact List.mem_cons_self _ _
      · exact List.mem_cons_of_mem _ h
    exact dictGet_of_mem hnd hmem
  · intro k' e' hk'
    have hmem' : (k', e') ∈ m.cache := mem_of_dictGet hk'
    rw [hc] at hmem'
    exact minAccAux_le p rest (k', e') hmem'
  · have hm1 : (if m.cache.length ≥ m.max_entries then m.evict_lru else m) =
        m.evict_lru := if_pos hfull
    have h2 : m.evict_lru.cache = eraseKey (minAccAux p rest).1 m.cache := by
      unfold SQLCacheManager.evict_lru
      rw [hc]
      rfl
    calc (m.set key v now).cache
        = insertKey key ⟨v, now, 0⟩ m.evict_lru.cache := by
          simp only [SQLCacheManager.set, hm1]
      _ = insertKey key ⟨v, now, 0⟩ (eraseKey (minAccAux p rest).1 m.cache) := by
          rw [h2]

/-- Concrete cache at its capacity of 2 whose lowest-access-count entry is
"a" (0 accesses) and whose key "b" (1 access) is present. -/
def mC10 : SQLCacheManager Nat := ⟨3600, 2, [("a", ⟨1, 0, 0⟩), ("b", ⟨2, 0, 1⟩)]⟩

/-- Witness for C1 at the concrete at-capacity cache: the evicted entry is
"a", the minimal-access one. -/
theorem set_at_capacity_evicts_min_access_witness :
    ∃ ek e, dictGet ek mC10.cache = some e ∧
      (∀ k' e', dictGet k' mC10.cache = some e' → e.access_count ≤ e'.access_count) ∧
      (mC10.set "c" 3 7).cache = insertKey "c" ⟨3, 7, 0⟩ (eraseKey ek mC10.cache) :=
  set_at_capacity_evicts_min_access mC10 "c" 3 7 (by decide) (by decide)
    (by unfold keysNodup; decide)

/-- C9: cleanup_expired removes exactly the entries expired against the
default TTL — every entry within the TTL remains stored, in order — and
returns the number of entries it removed. -/
theorem cleanup_expired_removes_exactly_expired {α : Type} (m : SQLCacheManager α)
    (now : Int) (hnd : keysNodup m.cache) :
    (m.cleanup_expired now).1 =
      (m.cache.filter (fun p => p.2.is_expired m.default_ttl now)).length
    ∧ (m.cleanup_expired now).2.cache =
      m.cache.filter (fun p => !(p.2.is_expired m.default_ttl now)) := by
  constructor
  · simp [SQLCacheManager.cleanup_expired]
  · have h1 : (m.cleanup_expired now).2.cache =
        ((m.cache.filter (fun p => p.2.is_expired m.default_ttl now)).map
          Prod.fst).foldl (fun c k => eraseKey k c) m.cache := rfl
    rw [h1, foldl_eraseKey_eq_filter _ _ hnd]
    apply List.filter_congr
    intro p hp
    by_cases hexp : p.2.is_expired m.default_ttl now
    · have hks : p.1 ∈ (m.cache.filter
          (fun q => q.2.is_expired m.default_ttl now)).map Prod.fst :=
        List.mem_map_of_mem Prod.fst (List.mem_filter.mpr ⟨hp, hexp⟩)
      simp [hks, hexp]
    · have hks : p.1 ∉ (m.cache.filter
          (fun q => q.2.is_expired m.default_ttl now)).map Prod.fst := by
        intro hmem
        obtain ⟨q, hq, hqp⟩ := List.mem_map.mp hmem
        have hq1 := List.mem_filter.mp hq
        have : q = p :=
          List.inj_on_of_nodup_map hnd hq1.1 hp hqp
        rw [this] at hq1
        exact hexp hq1.2
      simp [hks, hexp]

/-- Concrete cache (default TTL 10) holding one entry aged 100 seconds and
one aged 5 seconds at time 100. -/
def mC9 : SQLCacheManager Nat := ⟨10, 100, [("old", ⟨1, 0, 0⟩), ("new", ⟨2, 95, 0⟩)]⟩

/-- Witness for C9 at the concrete cache: one expired entry is removed, the
fresh one stays. -/
theorem cleanup_expired_removes_exactly_expired_witness :
    (mC9.cleanup_expired 100).1 =
      (mC9.cache.filter (fun p => p.2.is_expired mC9.default_ttl 100)).length
    ∧ (mC9.cleanup_expired 100).2.cache =
      mC9.cache.filter (fun p => !(p.2.is_expired mC9.default_ttl 100)) :=
  cleanup_expired_removes_exactly_expired mC9 100 (by unfold keysNodup; decide)

/-- C10: below capacity, `set` leaves every entry stored under a different
key unchanged; at capacity, `set` on an already-present key still evicts
the lowest-access-count entry, shown on a concrete cache of capacity 2:
overwriting the present key "b" deletes the unrelated key "a" and leaves
max_entries - 1 = 1 entry. -/
theorem set_frame_and_capacity_overwrite :
    (∀ (α : Type) (m : SQLCacheManager α) (key : String) (v : α) (now : Int)
        (k' : String), m.cache.length < m.max_entries → k' ≠ key →
        dictGet k' (m.set key v now).cache = dictGet k' m.cache)
    ∧ (mC10.cache.length = mC10.max_entries ∧
       dictGet "b" mC10.cache = some ⟨2, 0, 1⟩ ∧
       dictGet "a" mC10.cache = some ⟨1, 0, 0⟩ ∧
       dictGet "a" (mC10.set "b" 9 5).cache = none ∧
       (mC10.set "b" 9 5).cache.length = mC10.max_entries - 1) := by
  constructor
  · intro α m key v now k' hlt hne
    have hcond : ¬ (m.cache.length ≥ m.max_entries) := by omega
    have hm1 : (if m.cache.length ≥ m.max_entries then m.evict_lru else m) = m :=
      if_neg hcond
    have hc : (m.set key v now).cache = insertKey key ⟨v, now, 0⟩ m.cache := by
      simp only [SQLCacheManager.set, hm1]
    rw [hc, dictGet_insertKey_ne _ _ _ _ hne]
  · exact ⟨by decide, by decide, by decide, by decide, by decide⟩

/-- Concrete below-capacity cache for the C10 witness. -/
def mW10 : SQLCacheManager Nat := ⟨3600, 5, [("a", ⟨1, 0, 0⟩)]⟩

/-- Witness for C10's frame part at a concrete below-capacity cache. -/
theorem set_frame_and_capacity_overwrite_witness :
    dictGet "a" (mW10.set "b" 2 0).cache = dictGet "a" mW10.cache :=
  set_frame_and_capacity_overwrite.1 Nat mW10 "b" 2 0 "a" (by decide) (by decide)
